import Mathlib

/-!
Verification development for the CellCanvas panel canvas.

The Go sources are shallowly embedded: Go `int` becomes `Int` (with `Int.tdiv`
for Go's truncating integer division), Go strings that the cell-reference codec
computes on become `List Char`, the sparse `map[string]string` of cells becomes
an association list, and fallible functions return `Option`.
-/

namespace CellCanvas

/-! ### Layout constants (panel_bounds.go) -/

def PanelPaddingX : Int := 4

def PanelPaddingY : Int := 4

def PanelHeaderHeight : Int := 20

def PanelBorderWidth : Int := 2

def ResizeHandleSize : Int := 12

def PanelInnerPadding : Int := 6

/-- `panelGap` is the minimum spacing (in pixels) to keep between panels
(canvas.go). -/
def panelGap : Int := PanelPaddingX

def defaultCellW : Int := 80

def defaultCellH : Int := 24

/-! ### Cell reference codec (cell_utils.go)

Go strings are modelled as `List Char`; `strings.TrimSpace` / `ToUpper` are
modelled on the ASCII range, which is the range the codec itself produces. -/

def isSpaceChar (c : Char) : Bool :=
  c.toNat = 32 || c.toNat = 9 || c.toNat = 10 || c.toNat = 11 || c.toNat = 12 || c.toNat = 13

def trimSpace (s : List Char) : List Char :=
  ((s.dropWhile isSpaceChar).reverse.dropWhile isSpaceChar).reverse

def toUpperChar (c : Char) : Char :=
  if 97 ≤ c.toNat ∧ c.toNat ≤ 122 then Char.ofNat (c.toNat - 32) else c

def isUpperLetter (c : Char) : Bool :=
  65 ≤ c.toNat && c.toNat ≤ 90

def isAsciiLetter (c : Char) : Bool :=
  (65 ≤ c.toNat && c.toNat ≤ 90) || (97 ≤ c.toNat && c.toNat ≤ 122)

def isDigitChar (c : Char) : Bool :=
  48 ≤ c.toNat && c.toNat ≤ 57

def letterChar (n : Nat) : Char := Char.ofNat (65 + n)

def digitChar (n : Nat) : Char := Char.ofNat (48 + n)

/-- Structural core of the `ColToLetters` loop; the fuel argument only bounds
the recursion depth (any `fuel ≥ n` computes the loop exactly, see
`colLettersAux_unfold`). -/
def colLettersAuxF : Nat → Nat → List Char
  | 0, n => [letterChar (n % 26)]
  | fuel + 1, n =>
    if n < 26 then [letterChar n]
    else colLettersAuxF fuel (n / 26 - 1) ++ [letterChar (n % 26)]

/-- The loop of `ColToLetters` for a non-negative starting value: prepend
`'A' + n % 26` and continue with `n / 26 - 1` while that value is still
non-negative. -/
def colLettersAux (n : Nat) : List Char := colLettersAuxF n n

theorem colLettersAuxF_congr :
    ∀ (f1 f2 n : Nat), n ≤ f1 → n ≤ f2 → colLettersAuxF f1 n = colLettersAuxF f2 n := by
  intro f1
  induction f1 with
  | zero =>
    intro f2 n h1 _
    interval_cases n
    cases f2 <;> rfl
  | succ f1 ih =>
    intro f2 n h1 h2
    by_cases hn : n < 26
    · cases f2 with
      | zero =>
        interval_cases n
        rfl
      | succ f2 => simp [colLettersAuxF, hn]
    · cases f2 with
      | zero => omega
      | succ f2 =>
        have hd := Nat.div_le_self n 26
        simp only [colLettersAuxF, if_neg hn]
        rw [ih f2 (n / 26 - 1) (by omega) (by omega)]

/-- `colLettersAux` satisfies the defining equation of the Go loop. -/
theorem colLettersAux_unfold (n : Nat) :
    colLettersAux n =
      if n < 26 then [letterChar n]
      else colLettersAux (n / 26 - 1) ++ [letterChar (n % 26)] := by
  by_cases hn : n < 26
  · cases n with
    | zero => simp [colLettersAux, colLettersAuxF, hn]
    | succ m => simp [colLettersAux, colLettersAuxF, hn]
  · cases n with
    | zero => omega
    | succ m =>
      have hd := Nat.div_le_self (m + 1) 26
      simp only [colLettersAux, colLettersAuxF, if_neg hn]
      rw [colLettersAuxF_congr m ((m + 1) / 26 - 1) ((m + 1) / 26 - 1) (by omega) le_rfl]

/-- `ColToLetters` converts a zero-based column number to spreadsheet-style
letters; negative input yields `"?"`. -/
def ColToLetters (n : Int) : List Char :=
  if n < 0 then ['?'] else colLettersAux n.toNat

/-- `LettersToCol` converts spreadsheet-style letters to a zero-based column
number; parse failure is `none`. -/
def LettersToCol (s : List Char) : Option Int :=
  let t := trimSpace s
  if t = [] then none
  else
    let u := t.map toUpperChar
    if u.all isUpperLetter then
      some (u.foldl (fun r c => r * 26 + ((c.toNat : Int) - 65) + 1) 0 - 1)
    else none

/-- Structural core of decimal rendering; any `fuel ≥ n` computes the digits
exactly (see `natDigits_unfold`). -/
def natDigitsF : Nat → Nat → List Char
  | 0, n => [digitChar (n % 10)]
  | fuel + 1, n =>
    if n < 10 then [digitChar n]
    else natDigitsF fuel (n / 10) ++ [digitChar (n % 10)]

/-- Decimal digits of a natural number, most significant first. -/
def natDigits (n : Nat) : List Char := natDigitsF n n

theorem natDigitsF_congr :
    ∀ (f1 f2 n : Nat), n ≤ f1 → n ≤ f2 → natDigitsF f1 n = natDigitsF f2 n := by
  intro f1
  induction f1 with
  | zero =>
    intro f2 n h1 _
    interval_cases n
    cases f2 <;> rfl
  | succ f1 ih =>
    intro f2 n h1 h2
    by_cases hn : n < 10
    · cases f2 with
      | zero =>
        interval_cases n
        rfl
      | succ f2 => simp [natDigitsF, hn]
    · cases f2 with
      | zero => omega
      | succ f2 =>
        have hd := Nat.div_le_self n 10
        simp only [natDigitsF, if_neg hn]
        rw [ih f2 (n / 10) (by omega) (by omega)]

/-- `natDigits` satisfies the defining decimal-rendering equation. -/
theorem natDigits_unfold (n : Nat) :
    natDigits n =
      if n < 10 then [digitChar n]
      else natDigits (n / 10) ++ [digitChar (n % 10)] := by
  by_cases hn : n < 10
  · cases n with
    | zero => simp [natDigits, natDigitsF, hn]
    | succ m => simp [natDigits, natDigitsF, hn]
  · cases n with
    | zero => omega
    | succ m =>
      have hd := Nat.div_le_self (m + 1) 10
      simp only [natDigits, natDigitsF, if_neg hn]
      rw [natDigitsF_congr m ((m + 1) / 10) ((m + 1) / 10) (by omega) le_rfl]

/-- Go `fmt` decimal rendering of an `int`. -/
def intDigits (i : Int) : List Char :=
  if i < 0 then '-' :: natDigits (-i).toNat else natDigits i.toNat

/-- `CellRef` returns a string like `"A1"` for the given zero-based col and
row. -/
def CellRef (col row : Int) : List Char :=
  ColToLetters col ++ intDigits (row + 1)

def atoiDigits (s : List Char) : Option Int :=
  if s ≠ [] ∧ s.all isDigitChar then
    some (s.foldl (fun a d => a * 10 + ((d.toNat : Int) - 48)) 0)
  else none

/-- `strconv.Atoi`, modelled without the machine-word range check. -/
def atoi (s : List Char) : Option Int :=
  match s with
  | [] => none
  | c :: rest =>
    if c.toNat = 45 then (atoiDigits rest).map (fun v => -v)
    else if c.toNat = 43 then atoiDigits rest
    else atoiDigits s

/-- `ParseCellRef` parses a cell reference like `"A1"` into zero-based column
and row indices; any parse error is `none`. -/
def ParseCellRef (s : List Char) : Option (Int × Int) :=
  let ref := trimSpace s
  if ref = [] then none
  else
    let letters := ref.takeWhile isAsciiLetter
    if letters = [] then none
    else
      let digits := trimSpace (ref.dropWhile isAsciiLetter)
      if digits = [] then none
      else
        match LettersToCol letters with
        | none => none
        | some col =>
          match atoi digits with
          | none => none
          | some rowInt => some (col, rowInt - 1)

/-! ### Panel data model (canvas.go) -/

/-- The sparse cell map `map[string]string`, modelled as an association list
whose lookup finds the first matching key. -/
abbrev CellMap := List (List Char × String)

structure Panel where
  X : Int
  Y : Int
  Cols : Int
  Rows : Int
  CellW : Int
  CellH : Int
  Cells : CellMap
  Filename : String
  Loaded : Bool
deriving DecidableEq, Repr

def cellsLookup : CellMap → List Char → Option String
  | [], _ => none
  | (k', v) :: rest, k => if k' = k then some v else cellsLookup rest k

/-- Go `delete(m, k)`. -/
def cellsErase : CellMap → List Char → CellMap
  | [], _ => []
  | (k', v) :: rest, k =>
    if k' = k then cellsErase rest k else (k', v) :: cellsErase rest k

/-- Go `m[k] = v` (replaces any existing entry for `k`). -/
def cellsInsert (m : CellMap) (k : List Char) (v : String) : CellMap :=
  (k, v) :: cellsErase m k

/-- `GetCell` returns the string stored at the given col,row (zero-based);
empty string when not present. -/
def Panel.GetCell (p : Panel) (col row : Int) : String :=
  match cellsLookup p.Cells (CellRef col row) with
  | some v => v
  | none => ""

/-- `SetCell` writes a value at the given col,row; empty values remove the
entry to keep the structure sparse. -/
def Panel.SetCell (p : Panel) (col row : Int) (val : String) : Panel :=
  if val = "" then { p with Cells := cellsErase p.Cells (CellRef col row) }
  else { p with Cells := cellsInsert p.Cells (CellRef col row) val }

def NewBlankPanel (x y cols rows : Int) : Panel :=
  { X := x, Y := y, Cols := cols, Rows := rows, CellW := defaultCellW,
    CellH := defaultCellH, Cells := [], Filename := "", Loaded := true }

/-! ### Geometry engine (panel_bounds.go) -/

structure PanelBounds where
  ContentX : Int
  ContentY : Int
  ContentW : Int
  ContentH : Int
  TotalX : Int
  TotalY : Int
  TotalW : Int
  TotalH : Int
deriving DecidableEq, Repr

/-- Go `int(f)` conversion of a float: truncation toward zero.  The camera
offset is modelled as an exact rational. -/
def truncQ (q : ℚ) : Int := if 0 ≤ q then ⌊q⌋ else ⌈q⌉

/-- `GetBounds` returns the on-screen bounding rectangles for content and
total area of a panel. -/
def Panel.GetBounds (p : Panel) (camX camY : ℚ) : PanelBounds :=
  let contentX := truncQ ((p.X : ℚ) + camX)
  let contentY := truncQ ((p.Y : ℚ) + camY)
  let contentW := p.Cols * p.CellW
  let contentH := p.Rows * p.CellH
  { ContentX := contentX
    ContentY := contentY
    ContentW := contentW
    ContentH := contentH
    TotalX := contentX - PanelPaddingX
    TotalY := contentY - PanelHeaderHeight
    TotalW := contentW + PanelPaddingX * 2
    TotalH := contentH + PanelHeaderHeight + PanelPaddingY * 2 }

/-! ### Overlap resolver (canvas.go `resolveOneOverlap`) -/

/-- Left edge of the padding-expanded rectangle (`a.X - PanelPaddingX`). -/
def expLeft (p : Panel) : Int := p.X - PanelPaddingX

/-- Width of the padding-expanded rectangle
(`a.Cols*a.CellW + PanelPaddingX*2`). -/
def expW (p : Panel) : Int := p.Cols * p.CellW + PanelPaddingX * 2

def expRight (p : Panel) : Int := expLeft p + expW p

/-- Rectangle-center X coordinate (`aLeft + aW/2`, Go truncating division). -/
def centerX (p : Panel) : Int := expLeft p + Int.tdiv (expW p) 2

/-- `overlapX` (positive if the expanded rectangles overlap). -/
def overlapX (a b : Panel) : Int :=
  min (expRight a) (expRight b) - max (expLeft a) (expLeft b)

/-- The gap when not overlapping. -/
def gapX (a b : Panel) : Int :=
  if expRight a < expLeft b then expLeft b - expRight a
  else if expRight b < expLeft a then expLeft a - expRight b
  else -(overlapX a b)

/-- Horizontal violation: how much panel `b` must move to reach `panelGap`. -/
def violX (a b : Panel) : Int :=
  if overlapX a b > 0 then overlapX a b + panelGap
  else if gapX a b < panelGap then panelGap - gapX a b
  else 0

/-- Header-inclusive top edge (`a.Y - PanelHeaderHeight`). -/
def topY (p : Panel) : Int := p.Y - PanelHeaderHeight

/-- Header-inclusive total height
(`a.Rows*a.CellH + PanelHeaderHeight + PanelPaddingY*2`). -/
def totH (p : Panel) : Int := p.Rows * p.CellH + PanelHeaderHeight + PanelPaddingY * 2

/-- Vertical overlap of the header-inclusive spans. -/
def overlapY (a b : Panel) : Int :=
  min (topY a + totH a) (topY b + totH b) - max (topY a) (topY b)

/-- Direction panel `j` is moved: away from panel `i`'s center. -/
def moveDir (a b : Panel) : Int :=
  if centerX a < centerX b then 1 else -1

/-- Inner loop of `resolveOneOverlap`: scan the indexed panels after `i` for
the first partner `j` that is unlocked and violates both the horizontal-gap
and vertical-overlap conditions; report its index and move direction. -/
def scanJ (a : Panel) (locked : List Nat) : List (Nat × Panel) → Option (Nat × Int)
  | [] => none
  | (j, b) :: rest =>
    if j ∈ locked then scanJ a locked rest
    else if violX a b > 0 ∧ overlapY a b > 0 then some (j, moveDir a b)
    else scanJ a locked rest

/-- Outer loop of `resolveOneOverlap` over the indexed panel list. -/
def findMove (locked : List Nat) : List (Nat × Panel) → Option (Nat × Int)
  | [] => none
  | (i, a) :: rest =>
    if i ∈ locked then findMove locked rest
    else
      match scanJ a locked rest with
      | some m => some m
      | none => findMove locked rest

/-- Replace the element at an index by `f` of it (out-of-range: unchanged). -/
def modifyAt (f : Panel → Panel) : Nat → List Panel → List Panel
  | _, [] => []
  | 0, p :: rest => f p :: rest
  | n + 1, p :: rest => p :: modifyAt f n rest

/-- `c.panels[j].X += d`. -/
def addX (d : Int) (p : Panel) : Panel := { p with X := p.X + d }

/-- `resolveOneOverlap` finds the first violating pair (skipping locked
panels) and moves the pair's second panel by a single pixel along X. -/
def resolveOneOverlap (panels : List Panel) (locked : List Nat) : List Panel :=
  match findMove locked panels.enum with
  | none => panels
  | some (j, d) => modifyAt (addX d) j panels

/-- One resolver tick with no panel locked. -/
def tick (panels : List Panel) : List Panel := resolveOneOverlap panels []

/-- Iterate the resolver tick. -/
def iterTick : Nat → List Panel → List Panel
  | 0, ps => ps
  | n + 1, ps => tick (iterTick n ps)

/-! ### Resize (canvas.go `Update`, resize-drag branch) -/

/-- The resize re-keying loop: keep exactly the old entries whose keys parse
to coordinates within the new bounds (unparsable keys are skipped), re-keyed
canonically. -/
def resizeCells (old : CellMap) (cols rows : Int) : CellMap :=
  old.filterMap (fun e =>
    match ParseCellRef e.1 with
    | none => none
    | some (col, row) =>
      if 0 ≤ row ∧ row < rows ∧ 0 ≤ col ∧ col < cols then
        some (CellRef col row, e.2)
      else none)

/-- The resize-drag branch of `Update`, given the cursor-derived raw pixel
width and height of the content area. -/
def resizePanel (p : Panel) (wRaw hRaw : Int) : Panel :=
  let w := if wRaw < 64 then 64 else wRaw
  let h := if hRaw < 32 then 32 else hRaw
  let cols0 := Int.tdiv w p.CellW
  let rows0 := Int.tdiv h p.CellH
  let cols := if cols0 < 1 then 1 else cols0
  let rows := if rows0 < 1 then 1 else rows0
  { p with Cols := cols, Rows := rows, Cells := resizeCells p.Cells cols rows }

/-! ### CSV loading (model.go) -/

/-- The parse step of `loadPanelCSV` after `csv.ReadAll` has produced
`records` (the file-I/O and CSV-decode steps are external collaborators, so
the record list is taken as input). -/
def loadPanelCSVFromRecords (records : List (List String)) (p : Panel) : Panel :=
  if records = [] then { p with Rows := 0, Cols := 0, Cells := [] }
  else
    let cols : Int := records.foldl (fun m rec => max m (rec.length : Int)) 0
    let rows : Int := records.length
    let cells : CellMap :=
      (records.enum.map (fun e =>
        (List.range cols.toNat).filterMap (fun j =>
          match e.2.get? j with
          | some v => if v ≠ "" then some (CellRef j e.1, v) else none
          | none => none))).flatten
    { p with Rows := rows, Cols := cols, Cells := cells }

/-- `AddPanelFromCSV` (canvas.go): the file read/parse outcome is supplied as
an `Except` (I/O is a collaborator), and `filepath.Base path` as `baseName`.
Returns the diagnostic (if any) together with the resulting panel list. -/
def AddPanelFromCSV (panels : List Panel) (readResult : Except String (List (List String)))
    (baseName : String) (x y : Int) : Option String × List Panel :=
  let p := NewBlankPanel x y 1 1
  match readResult with
  | .error e => (some e, panels)
  | .ok records =>
    let p := loadPanelCSVFromRecords records p
    let p := { p with Filename := baseName, X := x, Y := y, Loaded := true }
    (none, panels ++ [p])

/-! ### Background load coordinator (SaveManager) -/

/-- Parsed panel content produced by a background load. -/
structure LoadedContent where
  cols : Int
  rows : Int
  cells : CellMap
  filename : String
deriving DecidableEq, Repr

/-- The completion message of one background load. -/
inductive LoadOutcome where
  | success (content : LoadedContent)
  | failure (msg : String) (filename : String)
deriving DecidableEq, Repr

structure PendingLoad where
  targetIndex : Nat
  outcome : LoadOutcome
deriving DecidableEq, Repr

/-- Modelled from the spec: the `SaveManager.ApplyPending` merge step for a
single drained completion message (the `SaveManager` implementation itself is
not among the provided sources; §4.3 of the spec).  On success it merges the
content into the panel at `targetIndex` if still within bounds, preserving
that panel's current position, overwriting its filename and content and
marking `loaded = true`; on failure it marks `loaded = false` and records the
filename; an out-of-bounds target is silently discarded. -/
def applyOne (panels : List Panel) (r : PendingLoad) : List Panel :=
  if r.targetIndex < panels.length then
    match r.outcome with
    | .success content =>
      modifyAt (fun p =>
        { p with Cols := content.cols, Rows := content.rows,
                 Cells := content.cells, Filename := content.filename,
                 Loaded := true }) r.targetIndex panels
    | .failure _ fn =>
      modifyAt (fun p => { p with Loaded := false, Filename := fn })
        r.targetIndex panels
  else panels

/-- Modelled from the spec: `ApplyPending` drains all currently-queued
completed results in order. -/
def ApplyPending (panels : List Panel) (queue : List PendingLoad) : List Panel :=
  queue.foldl applyOne panels

/-! ## Generic helper lemmas -/

theorem modifyAt_get?_ne (f : Panel → Panel) :
    ∀ (n k : Nat) (l : List Panel), k ≠ n → (modifyAt f n l).get? k = l.get? k := by
  intro n k l
  induction l generalizing n k with
  | nil => intro _; cases n <;> rfl
  | cons p rest ih =>
    intro hk
    cases n with
    | zero =>
      cases k with
      | zero => exact absurd rfl hk
      | succ k => rfl
    | succ n =>
      cases k with
      | zero => rfl
      | succ k => simpa [modifyAt] using ih n k (by omega)

theorem modifyAt_get?_self (f : Panel → Panel) :
    ∀ (n : Nat) (l : List Panel) (p : Panel), l.get? n = some p →
      (modifyAt f n l).get? n = some (f p) := by
  intro n l
  induction l generalizing n with
  | nil => intro p h; simp at h
  | cons q rest ih =>
    intro p h
    cases n with
    | zero => simp at h; simp [modifyAt, h]
    | succ n => simpa [modifyAt] using ih n p (by simpa using h)

theorem modifyAt_length (f : Panel → Panel) :
    ∀ (n : Nat) (l : List Panel), (modifyAt f n l).length = l.length := by
  intro n l
  induction l generalizing n with
  | nil => cases n <;> rfl
  | cons q rest ih =>
    cases n with
    | zero => rfl
    | succ n => simpa [modifyAt] using ih n

theorem addX_zero (p : Panel) : addX 0 p = p := by
  cases p; simp [addX]

theorem modifyAt_addX_zero : ∀ (n : Nat) (l : List Panel), modifyAt (addX 0) n l = l := by
  intro n l
  induction l generalizing n with
  | nil => cases n <;> rfl
  | cons q rest ih =>
    cases n with
    | zero => simp [modifyAt, addX_zero]
    | succ n => simp [modifyAt, ih n]

/-! ## Claim C4: geometry engine -/

/-- C4: for every panel and camera offset, `GetBounds` returns
`contentX = trunc(panel.X + camX)`, `contentY = trunc(panel.Y + camY)`,
`contentW = Cols × CellW`, `contentH = Rows × CellH`,
`totalX = contentX − paddingX`, `totalY = contentY − headerHeight`,
`totalW = contentW + 2×paddingX` and
`totalH = contentH + headerHeight + 2×paddingY`.  `GetBounds` is a pure
function of the panel and camera, so it is deterministic and effect-free by
construction. -/
theorem c4_getBounds_spec (p : Panel) (camX camY : ℚ) :
    (p.GetBounds camX camY).ContentX = truncQ ((p.X : ℚ) + camX) ∧
    (p.GetBounds camX camY).ContentY = truncQ ((p.Y : ℚ) + camY) ∧
    (p.GetBounds camX camY).ContentW = p.Cols * p.CellW ∧
    (p.GetBounds camX camY).ContentH = p.Rows * p.CellH ∧
    (p.GetBounds camX camY).TotalX = (p.GetBounds camX camY).ContentX - PanelPaddingX ∧
    (p.GetBounds camX camY).TotalY = (p.GetBounds camX camY).ContentY - PanelHeaderHeight ∧
    (p.GetBounds camX camY).TotalW = (p.GetBounds camX camY).ContentW + 2 * PanelPaddingX ∧
    (p.GetBounds camX camY).TotalH =
      (p.GetBounds camX camY).ContentH + PanelHeaderHeight + 2 * PanelPaddingY := by
  refine ⟨rfl, rfl, rfl, rfl, rfl, rfl, ?_, ?_⟩ <;> simp [Panel.GetBounds] <;> ring

/-! ## Claim C8: sparse cell storage -/

theorem cellsLookup_erase_self : ∀ (m : CellMap) (k : List Char),
    cellsLookup (cellsErase m k) k = none := by
  intro m k
  induction m with
  | nil => rfl
  | cons e rest ih =>
    by_cases h : e.1 = k
    · simpa [cellsErase, h] using ih
    · simpa [cellsErase, cellsLookup, h] using ih

/-- C8: for col ≥ 0 and row ≥ 0, `SetCell` with a non-empty value followed by
`GetCell` returns exactly that value; `SetCell` with the empty string removes
the stored entry, so `GetCell` afterwards returns the empty string; and
`GetCell` on a panel with no stored cells returns the empty string. -/
theorem c8_setGet_spec (p : Panel) (col row : Int) (v : String)
    (hc : 0 ≤ col) (hr : 0 ≤ row) :
    (v ≠ "" → (p.SetCell col row v).GetCell col row = v) ∧
    (p.SetCell col row "").GetCell col row = "" ∧
    (∀ q : Panel, q.Cells = [] → q.GetCell col row = "") := by
  refine ⟨?_, ?_, ?_⟩
  · intro hv
    simp [Panel.SetCell, Panel.GetCell, cellsInsert, cellsLookup, hv]
  · simp [Panel.SetCell, Panel.GetCell, cellsLookup_erase_self]
  · intro q hq
    simp [Panel.GetCell, hq, cellsLookup]

/-- C8 witness: instantiated at a concrete panel and cell. -/
theorem c8_setGet_spec_witness :
    (0 : Int) ≤ 1 ∧ (0 : Int) ≤ 2 ∧
    (("hi" ≠ "" → ((NewBlankPanel 0 0 5 5).SetCell 1 2 "hi").GetCell 1 2 = "hi") ∧
     ((NewBlankPanel 0 0 5 5).SetCell 1 2 "").GetCell 1 2 = "" ∧
     (∀ q : Panel, q.Cells = [] → q.GetCell 1 2 = "")) :=
  ⟨by decide, by decide, c8_setGet_spec (NewBlankPanel 0 0 5 5) 1 2 "hi" (by decide) (by decide)⟩

/-! ## Claim C6: grid-dimension invariant -/

/-- C6 counterexample: loading an empty CSV file (zero records) into a 5×5
panel sets `Cols = Rows = 0`, so the invariant `Cols ≥ 1 ∧ Rows ≥ 1` is not
preserved by CSV loading. -/
theorem c6_counterexample :
    (loadPanelCSVFromRecords [] (NewBlankPanel 0 0 5 5)).Cols = 0 ∧
    (loadPanelCSVFromRecords [] (NewBlankPanel 0 0 5 5)).Rows = 0 ∧
    ¬ (1 ≤ (loadPanelCSVFromRecords [] (NewBlankPanel 0 0 5 5)).Cols) := by
  decide

/-- C6 amended: the resize operation always produces `Cols ≥ 1` and
`Rows ≥ 1` (the clamps at the resize boundary), and loading a CSV file with
at least one record produces `Rows ≥ 1`; loading an empty CSV file instead
produces a zero-sized panel. -/
theorem c6_amended :
    (∀ (p : Panel) (w h : Int), 1 ≤ p.CellW → 1 ≤ p.CellH →
      1 ≤ (resizePanel p w h).Cols ∧ 1 ≤ (resizePanel p w h).Rows) ∧
    (∀ (p : Panel) (records : List (List String)), records ≠ [] →
      1 ≤ (loadPanelCSVFromRecords records p).Rows) := by
  constructor
  · intro p w h _ _
    simp only [resizePanel]
    constructor <;> split <;> omega
  · intro p records hrec
    simp only [loadPanelCSVFromRecords, if_neg hrec]
    have : 0 < records.length := List.length_pos.mpr hrec
    simp
    omega

/-- C6 witness: the amended theorem instantiated at a concrete panel, resize
request and record list. -/
theorem c6_amended_witness :
    (1 ≤ (NewBlankPanel 0 0 5 5).CellW ∧ 1 ≤ (NewBlankPanel 0 0 5 5).CellH ∧
      [["a"]] ≠ ([] : List (List String))) ∧
    ((1 ≤ (resizePanel (NewBlankPanel 0 0 5 5) 100 50).Cols ∧
      1 ≤ (resizePanel (NewBlankPanel 0 0 5 5) 100 50).Rows) ∧
     1 ≤ (loadPanelCSVFromRecords [["a"]] (NewBlankPanel 0 0 5 5)).Rows) :=
  ⟨⟨by decide, by decide, by decide⟩,
   ⟨c6_amended.1 (NewBlankPanel 0 0 5 5) 100 50 (by decide) (by decide),
    c6_amended.2 (NewBlankPanel 0 0 5 5) [["a"]] (by decide)⟩⟩

/-! ## Claim C9: synchronous add-from-file -/

/-- C9: when the file read or CSV parse fails, `AddPanelFromCSV` reports the
error and leaves the panel collection completely unchanged; on success it
appends exactly one panel, carrying the parsed content, to the end of the
collection. -/
theorem c9_addFromCSV (panels : List Panel)
    (res : Except String (List (List String))) (base : String) (x y : Int) :
    (∀ e, res = .error e → AddPanelFromCSV panels res base x y = (some e, panels)) ∧
    (∀ records, res = .ok records →
      ∃ p, AddPanelFromCSV panels res base x y = (none, panels ++ [p]) ∧
        p = { loadPanelCSVFromRecords records (NewBlankPanel x y 1 1) with
              Filename := base, X := x, Y := y, Loaded := true }) := by
  constructor
  · intro e he; subst he; rfl
  · intro records hrec; subst hrec
    exact ⟨_, rfl, rfl⟩

/-- C9 witness: instantiated at a concrete failing read and a concrete
successful read. -/
theorem c9_addFromCSV_witness :
    ((Except.error "no such file" : Except String (List (List String))) =
        .error "no such file" ∧
      (Except.ok [["a", "b"]] : Except String (List (List String))) = .ok [["a", "b"]]) ∧
    (AddPanelFromCSV [] (.error "no such file") "f.csv" 3 4 = (some "no such file", []) ∧
     ∃ p, AddPanelFromCSV [] (.ok [["a", "b"]]) "f.csv" 3 4 = (none, [] ++ [p]) ∧
       p = { loadPanelCSVFromRecords [["a", "b"]] (NewBlankPanel 3 4 1 1) with
             Filename := "f.csv", X := 3, Y := 4, Loaded := true }) :=
  ⟨⟨rfl, rfl⟩,
   ⟨(c9_addFromCSV [] (.error "no such file") "f.csv" 3 4).1 "no such file" rfl,
    (c9_addFromCSV [] (.ok [["a", "b"]]) "f.csv" 3 4).2 [["a", "b"]] rfl⟩⟩

/-! ## Claim C5: load-completion merge preserves position -/

/-- C5: when a background load completes successfully and its target index is
still within the panel collection, the `ApplyPending` merge step overwrites
the target panel's content (grid dimensions and cells) and filename and sets
`loaded = true`, while leaving the panel's current position `(X, Y)`
unchanged — the merge reads only the panel's state at merge time, so a move
between scheduling and completion is preserved. -/
theorem c5_merge_preserves_position (panels : List Panel) (idx : Nat)
    (content : LoadedContent) (p : Panel) (h : panels.get? idx = some p) :
    ∃ q, (applyOne panels ⟨idx, .success content⟩).get? idx = some q ∧
      q.X = p.X ∧ q.Y = p.Y ∧
      q.Cells = content.cells ∧ q.Filename = content.filename ∧
      q.Cols = content.cols ∧ q.Rows = content.rows ∧ q.Loaded = true := by
  have hlt : idx < panels.length := (List.get?_eq_some.mp h).1
  refine ⟨{ p with
            Cols := content.cols
            Rows := content.rows
            Cells := content.cells
            Filename := content.filename
            Loaded := true },
    ?_, rfl, rfl, rfl, rfl, rfl, rfl, rfl⟩
  simp only [applyOne, if_pos hlt]
  exact modifyAt_get?_self _ idx panels p h

/-- C5 witness: a panel scheduled while at (100, 200) and moved to (150, 250)
before the load completes keeps its moved position after the merge. -/
theorem c5_merge_preserves_position_witness :
    ([NewBlankPanel 150 250 5 5].get? 0 = some (NewBlankPanel 150 250 5 5)) ∧
    (∃ q, (applyOne [NewBlankPanel 150 250 5 5]
            ⟨0, .success ⟨2, 2, [(CellRef 0 0, "v")], "data.csv"⟩⟩).get? 0 = some q ∧
      q.X = (NewBlankPanel 150 250 5 5).X ∧ q.Y = (NewBlankPanel 150 250 5 5).Y ∧
      q.Cells = [(CellRef 0 0, "v")] ∧ q.Filename = "data.csv" ∧
      q.Cols = 2 ∧ q.Rows = 2 ∧ q.Loaded = true) :=
  ⟨rfl, c5_merge_preserves_position [NewBlankPanel 150 250 5 5] 0
    ⟨2, 2, [(CellRef 0 0, "v")], "data.csv"⟩ (NewBlankPanel 150 250 5 5) rfl⟩

/-! ## Claim C2: single-pixel frame property of the resolver -/

theorem scanJ_dir (a : Panel) (locked : List Nat) :
    ∀ (l : List (Nat × Panel)) (j : Nat) (d : Int),
      scanJ a locked l = some (j, d) → d = 1 ∨ d = -1 := by
  intro l
  induction l with
  | nil => intro j d h; simp [scanJ] at h
  | cons e rest ih =>
    intro j d h
    rcases e with ⟨j', b⟩
    by_cases hl : j' ∈ locked
    · exact ih j d (by simpa [scanJ, hl] using h)
    · by_cases hv : violX a b > 0 ∧ overlapY a b > 0
      · simp [scanJ, hl, hv] at h
        rcases h with ⟨-, hd⟩
        unfold moveDir at hd
        split at hd <;> omega
      · exact ih j d (by simpa [scanJ, hl, hv] using h)

theorem findMove_dir (locked : List Nat) :
    ∀ (l : List (Nat × Panel)) (j : Nat) (d : Int),
      findMove locked l = some (j, d) → d = 1 ∨ d = -1 := by
  intro l
  induction l with
  | nil => intro j d h; simp [findMove] at h
  | cons e rest ih =>
    intro j d h
    rcases e with ⟨i, a⟩
    by_cases hl : i ∈ locked
    · exact ih j d (by simpa [findMove, hl] using h)
    · simp only [findMove, if_neg hl] at h
      cases hs : scanJ a locked rest with
      | none => rw [hs] at h; exact ih j d h
      | some m =>
        rw [hs] at h
        cases m with
        | mk j' d' =>
          cases h
          exact scanJ_dir a locked rest j d hs

/-- C2: a single resolver tick, over any panels and any locked set, either
leaves the panel list unchanged or rewrites exactly one index `j` by adding
`d ∈ {1, -1}` to that panel's `X`; every other panel, and every field of
panel `j` other than `X`, is untouched (the update is exactly
`{ p with X := p.X + d }`). -/
theorem c2_single_pixel_frame (panels : List Panel) (locked : List Nat) :
    ∃ (j : Nat) (d : Int), (d = 0 ∨ d = 1 ∨ d = -1) ∧
      resolveOneOverlap panels locked = modifyAt (addX d) j panels ∧
      ∀ k, k ≠ j → (resolveOneOverlap panels locked).get? k = panels.get? k := by
  unfold resolveOneOverlap
  cases hf : findMove locked panels.enum with
  | none =>
    refine ⟨0, 0, Or.inl rfl, by rw [modifyAt_addX_zero], ?_⟩
    intro k _; rfl
  | some m =>
    rcases m with ⟨j, d⟩
    refine ⟨j, d, Or.inr (findMove_dir locked panels.enum j d hf), rfl, ?_⟩
    intro k hk
    exact modifyAt_get?_ne (addX d) j k panels hk

/-! ## Claim C3: locked panels are never moved -/

theorem scanJ_not_locked (a : Panel) (locked : List Nat) :
    ∀ (l : List (Nat × Panel)) (j : Nat) (d : Int),
      scanJ a locked l = some (j, d) → j ∉ locked := by
  intro l
  induction l with
  | nil => intro j d h; simp [scanJ] at h
  | cons e rest ih =>
    intro j d h
    rcases e with ⟨j', b⟩
    by_cases hl : j' ∈ locked
    · exact ih j d (by simpa [scanJ, hl] using h)
    · by_cases hv : violX a b > 0 ∧ overlapY a b > 0
      · simp [scanJ, hl, hv] at h
        rcases h with ⟨hj, -⟩
        exact hj ▸ hl
      · exact ih j d (by simpa [scanJ, hl, hv] using h)

theorem findMove_not_locked (locked : List Nat) :
    ∀ (l : List (Nat × Panel)) (j : Nat) (d : Int),
      findMove locked l = some (j, d) → j ∉ locked := by
  intro l
  induction l with
  | nil => intro j d h; simp [findMove] at h
  | cons e rest ih =>
    intro j d h
    rcases e with ⟨i, a⟩
    by_cases hl : i ∈ locked
    · exact ih j d (by simpa [findMove, hl] using h)
    · simp only [findMove, if_neg hl] at h
      cases hs : scanJ a locked rest with
      | none => rw [hs] at h; exact ih j d h
      | some m =>
        rw [hs] at h
        cases m with
        | mk j' d' =>
          cases h
          exact scanJ_not_locked a locked rest j d hs

theorem enumFrom_fst_le :
    ∀ (xs : List Panel) (n : Nat) (e : Nat × Panel), e ∈ List.enumFrom n xs → n ≤ e.1 := by
  intro xs
  induction xs with
  | nil => intro n e he; simp [List.enumFrom] at he
  | cons x xs ih =>
    intro n e he
    rcases List.mem_cons.mp he with h | h
    · rw [h]
    · have := ih (n + 1) e h
      omega

theorem enumFrom_pairwise :
    ∀ (xs : List Panel) (n : Nat),
      List.Pairwise (fun e1 e2 => e1.1 < e2.1) (List.enumFrom n xs) := by
  intro xs
  induction xs with
  | nil => intro n; simp [List.enumFrom]
  | cons x xs ih =>
    intro n
    refine List.pairwise_cons.mpr ⟨?_, ih (n + 1)⟩
    intro e he
    have := enumFrom_fst_le xs (n + 1) e he
    omega

theorem enum_pairwise (panels : List Panel) :
    List.Pairwise (fun e1 e2 => e1.1 < e2.1) panels.enum :=
  enumFrom_pairwise panels 0

/-- Any hit of the inner scan names an unlocked partner `j` present in the
scanned suffix whose pair with `a` actually violates, moved by `moveDir`. -/
theorem scanJ_attribution (a : Panel) (locked : List Nat) :
    ∀ (l : List (Nat × Panel)) (j : Nat) (d : Int),
      scanJ a locked l = some (j, d) →
      ∃ b, (j, b) ∈ l ∧ j ∉ locked ∧ violX a b > 0 ∧ overlapY a b > 0 ∧
        d = moveDir a b := by
  intro l
  induction l with
  | nil => intro j d h; simp [scanJ] at h
  | cons e rest ih =>
    intro j d h
    rcases e with ⟨j', b⟩
    by_cases hl : j' ∈ locked
    · obtain ⟨b0, hmem, hrest⟩ := ih j d (by simpa [scanJ, hl] using h)
      exact ⟨b0, List.mem_cons_of_mem _ hmem, hrest⟩
    · by_cases hv : violX a b > 0 ∧ overlapY a b > 0
      · simp [scanJ, hl, hv] at h
        rcases h with ⟨hj, hd⟩
        exact ⟨b, by simp [hj], hj ▸ hl, hv.1, hv.2, hd.symm⟩
      · obtain ⟨b0, hmem, hrest⟩ := ih j d (by simpa [scanJ, hl, hv] using h)
        exact ⟨b0, List.mem_cons_of_mem _ hmem, hrest⟩

/-- Any correction found by the outer scan is attributable to a scanned pair
`(i, j)` with `i < j` whose members are both unlocked and which actually
violates the horizontal-gap and vertical-overlap conditions. -/
theorem findMove_attribution (locked : List Nat) :
    ∀ (l : List (Nat × Panel)) (j : Nat) (d : Int),
      List.Pairwise (fun e1 e2 => e1.1 < e2.1) l →
      findMove locked l = some (j, d) →
      ∃ i a b, (i, a) ∈ l ∧ (j, b) ∈ l ∧ i ∉ locked ∧ j ∉ locked ∧ i < j ∧
        violX a b > 0 ∧ overlapY a b > 0 ∧ d = moveDir a b := by
  intro l
  induction l with
  | nil => intro j d _ h; simp [findMove] at h
  | cons e rest ih =>
    intro j d hpw h
    rcases e with ⟨i', a'⟩
    obtain ⟨hhead, htail⟩ := List.pairwise_cons.mp hpw
    by_cases hl : i' ∈ locked
    · obtain ⟨i, a, b, hia, hjb, hrest⟩ := ih j d htail (by simpa [findMove, hl] using h)
      exact ⟨i, a, b, List.mem_cons_of_mem _ hia, List.mem_cons_of_mem _ hjb, hrest⟩
    · simp only [findMove, if_neg hl] at h
      cases hs : scanJ a' locked rest with
      | none =>
        rw [hs] at h
        obtain ⟨i, a, b, hia, hjb, hrest⟩ := ih j d htail h
        exact ⟨i, a, b, List.mem_cons_of_mem _ hia, List.mem_cons_of_mem _ hjb, hrest⟩
      | some m =>
        rw [hs] at h
        cases m with
        | mk j0 d0 =>
          cases h
          obtain ⟨b, hjb, hjlock, hv, hov, hd⟩ := scanJ_attribution a' locked rest j d hs
          exact ⟨i', a', b, List.mem_cons_self _ _, List.mem_cons_of_mem _ hjb,
            hl, hjlock, hhead (j, b) hjb, hv, hov, hd⟩

/-- C3: a panel whose index is in the caller-supplied locked set is never
moved by a resolver tick — the entry at a locked index is returned unchanged
regardless of how large the overlap is — and no pair having a locked member
ever triggers a correction: every correction the scan finds is attributable
to a pair `(i, j)`, `i < j`, with both members unlocked and genuinely
violating. -/
theorem c3_locked_never_moved (panels : List Panel) (locked : List Nat) (j : Nat)
    (h : j ∈ locked) :
    (resolveOneOverlap panels locked).get? j = panels.get? j ∧
    ∀ j' d, findMove locked panels.enum = some (j', d) →
      ∃ i a b, (i, a) ∈ panels.enum ∧ (j', b) ∈ panels.enum ∧
        i ∉ locked ∧ j' ∉ locked ∧ i < j' ∧
        violX a b > 0 ∧ overlapY a b > 0 ∧ d = moveDir a b := by
  constructor
  · unfold resolveOneOverlap
    cases hf : findMove locked panels.enum with
    | none => rfl
    | some m =>
      rcases m with ⟨j', d⟩
      have hj' : j' ∉ locked := findMove_not_locked locked panels.enum j' d hf
      exact modifyAt_get?_ne (addX d) j' j panels (fun he => hj' (he ▸ h))
  · intro j' d hf
    exact findMove_attribution locked panels.enum j' d (enum_pairwise panels) hf

/-- C3 witness: two heavily overlapping panels, both locked — the tick leaves
the panel at the locked index unchanged, and any correction would have to
come from a fully-unlocked pair. -/
theorem c3_locked_never_moved_witness :
    (1 : Nat) ∈ [0, 1] ∧
    ((resolveOneOverlap [NewBlankPanel 0 0 5 5, NewBlankPanel 0 0 5 5] [0, 1]).get? 1 =
        [NewBlankPanel 0 0 5 5, NewBlankPanel 0 0 5 5].get? 1 ∧
      ∀ j' d, findMove [0, 1] ([NewBlankPanel 0 0 5 5, NewBlankPanel 0 0 5 5] : List Panel).enum =
          some (j', d) →
        ∃ i a b, (i, a) ∈ ([NewBlankPanel 0 0 5 5, NewBlankPanel 0 0 5 5] : List Panel).enum ∧
          (j', b) ∈ ([NewBlankPanel 0 0 5 5, NewBlankPanel 0 0 5 5] : List Panel).enum ∧
          i ∉ ([0, 1] : List Nat) ∧ j' ∉ ([0, 1] : List Nat) ∧ i < j' ∧
          violX a b > 0 ∧ overlapY a b > 0 ∧ d = moveDir a b) :=
  ⟨by decide,
   c3_locked_never_moved [NewBlankPanel 0 0 5 5, NewBlankPanel 0 0 5 5] [0, 1] 1 (by decide)⟩

/-! ## Claim C7: resize re-keying -/

/-- C7: after resizing to `newCols × newRows`, the cell map contains exactly
the prior entries whose key parses to a `(col, row)` with
`0 ≤ col < newCols` and `0 ≤ row < newRows` (entries with unparsable keys are
silently skipped), re-keyed canonically; and, as in the spec's scenario, a
5×5 panel with cell `"C3"` set, shrunk to 2×2 and grown back to 5×5, does not
resurrect the dropped entry. -/
theorem c7_resize_rekey (old : CellMap) (cols rows : Int) (k : List Char) (v : String) :
    ((k, v) ∈ resizeCells old cols rows ↔
      ∃ (k0 : List Char) (c r : Int), (k0, v) ∈ old ∧ ParseCellRef k0 = some (c, r) ∧
        0 ≤ c ∧ c < cols ∧ 0 ≤ r ∧ r < rows ∧ k = CellRef c r) ∧
    cellsLookup (resizeCells (resizeCells [(CellRef 2 2, "x")] 2 2) 5 5) (CellRef 2 2) =
      none := by
  constructor
  · unfold resizeCells
    rw [List.mem_filterMap]
    constructor
    · rintro ⟨⟨k0, v0⟩, hmem, heq⟩
      cases hp : ParseCellRef k0 with
      | none => rw [hp] at heq; simp at heq
      | some cr =>
        rcases cr with ⟨c, r⟩
        rw [hp] at heq
        simp only at heq
        split at heq
        · rename_i hb
          injection heq with h1
          injection h1 with hk hv
          exact ⟨k0, c, r, hv ▸ hmem, hp, by tauto, by tauto, by tauto, by tauto, hk.symm⟩
        · simp at heq
    · rintro ⟨k0, c, r, hmem, hp, h1, h2, h3, h4, hk⟩
      refine ⟨(k0, v), hmem, ?_⟩
      simp only [hp]
      rw [if_pos ⟨h3, h4, h1, h2⟩, hk]
  · decide

/-! ## Claim C10: cell-reference codec roundtrip -/

theorem letterChar_toNat (k : Nat) (h : k < 26) : (letterChar k).toNat = 65 + k := by
  interval_cases k <;> decide

theorem digitChar_toNat (k : Nat) (h : k < 10) : (digitChar k).toNat = 48 + k := by
  interval_cases k <;> decide

theorem colLettersAux_chars (n : Nat) :
    ∀ c ∈ colLettersAux n, 65 ≤ c.toNat ∧ c.toNat ≤ 90 := by
  induction n using Nat.strong_induction_on with
  | _ n ih =>
    rw [colLettersAux_unfold]
    split
    · rename_i hn
      intro c hc
      simp at hc
      rw [hc, letterChar_toNat n hn]
      omega
    · rename_i hn
      intro c hc
      rcases List.mem_append.mp hc with h | h
      · have hd := Nat.div_le_self n 26
        exact ih (n / 26 - 1) (by omega) c h
      · simp at h
        rw [h, letterChar_toNat (n % 26) (Nat.mod_lt n (by omega))]
        omega

theorem colLettersAux_ne_nil (n : Nat) : colLettersAux n ≠ [] := by
  rw [colLettersAux_unfold]
  split
  · simp
  · simp

theorem colLettersAux_foldl (n : Nat) :
    (colLettersAux n).foldl (fun r c => r * 26 + ((c.toNat : Int) - 65) + 1) 0 = n + 1 := by
  induction n using Nat.strong_induction_on with
  | _ n ih =>
    rw [colLettersAux_unfold]
    split
    · rename_i hn
      simp only [List.foldl_cons, List.foldl_nil, letterChar_toNat n hn]
      omega
    · rename_i hn
      have hd := Nat.div_le_self n 26
      rw [List.foldl_append]
      rw [ih (n / 26 - 1) (by omega)]
      simp only [List.foldl_cons, List.foldl_nil,
        letterChar_toNat (n % 26) (Nat.mod_lt n (by omega))]
      omega

theorem natDigits_chars (n : Nat) :
    ∀ c ∈ natDigits n, 48 ≤ c.toNat ∧ c.toNat ≤ 57 := by
  induction n using Nat.strong_induction_on with
  | _ n ih =>
    rw [natDigits_unfold]
    split
    · rename_i hn
      intro c hc
      simp at hc
      rw [hc, digitChar_toNat n hn]
      omega
    · rename_i hn
      intro c hc
      rcases List.mem_append.mp hc with h | h
      · have hd := Nat.div_le_self n 10
        exact ih (n / 10) (by omega) c h
      · simp at h
        rw [h, digitChar_toNat (n % 10) (Nat.mod_lt n (by omega))]
        omega

theorem natDigits_ne_nil (n : Nat) : natDigits n ≠ [] := by
  rw [natDigits_unfold]
  split
  · simp
  · simp

theorem natDigits_foldl (n : Nat) :
    (natDigits n).foldl (fun a d => a * 10 + ((d.toNat : Int) - 48)) 0 = n := by
  induction n using Nat.strong_induction_on with
  | _ n ih =>
    rw [natDigits_unfold]
    split
    · rename_i hn
      simp only [List.foldl_cons, List.foldl_nil, digitChar_toNat n hn]
      omega
    · rename_i hn
      have hd := Nat.div_le_self n 10
      rw [List.foldl_append]
      rw [ih (n / 10) (by omega)]
      simp only [List.foldl_cons, List.foldl_nil,
        digitChar_toNat (n % 10) (Nat.mod_lt n (by omega))]
      omega

theorem isSpaceChar_false (c : Char) (h : 48 ≤ c.toNat) : isSpaceChar c = false := by
  simp [isSpaceChar]
  omega

theorem dropWhile_false (p : Char → Bool) :
    ∀ l : List Char, (∀ c ∈ l, p c = false) → l.dropWhile p = l := by
  intro l h
  induction l with
  | nil => rfl
  | cons c t ih =>
    rw [List.dropWhile_cons, h c (by simp)]
    simp

theorem trimSpace_eq_self (l : List Char) (h : ∀ c ∈ l, isSpaceChar c = false) :
    trimSpace l = l := by
  unfold trimSpace
  rw [dropWhile_false isSpaceChar l h]
  rw [dropWhile_false isSpaceChar l.reverse (fun c hc => h c (List.mem_reverse.mp hc))]
  exact List.reverse_reverse l

theorem map_toUpperChar_upper :
    ∀ l : List Char, (∀ c ∈ l, 65 ≤ c.toNat ∧ c.toNat ≤ 90) → l.map toUpperChar = l := by
  intro l h
  induction l with
  | nil => rfl
  | cons c t ih =>
    have hc := h c (by simp)
    have : toUpperChar c = c := by
      unfold toUpperChar
      rw [if_neg (by omega)]
    simp only [List.map_cons, this]
    rw [ih (fun d hd => h d (by simp [hd]))]

theorem takeWhile_append_all (p : Char → Bool) :
    ∀ xs ys : List Char, (∀ c ∈ xs, p c = true) →
      (∀ c, ys.head? = some c → p c = false) →
      (xs ++ ys).takeWhile p = xs ∧ (xs ++ ys).dropWhile p = ys := by
  intro xs
  induction xs with
  | nil =>
    intro ys _ h2
    cases ys with
    | nil => exact ⟨rfl, rfl⟩
    | cons c t =>
      have hc := h2 c rfl
      simp [List.takeWhile_cons, List.dropWhile_cons, hc]
  | cons x xs ih =>
    intro ys h1 h2
    have hx := h1 x (by simp)
    have hrest := ih ys (fun c hc => h1 c (by simp [hc])) h2
    simp only [List.cons_append, List.takeWhile_cons, List.dropWhile_cons, hx]
    simp [hrest.1, hrest.2]

theorem isUpperLetter_upper (c : Char) (h1 : 65 ≤ c.toNat) (h2 : c.toNat ≤ 90) :
    isUpperLetter c = true := by
  simp [isUpperLetter]
  omega

theorem isAsciiLetter_upper (c : Char) (h1 : 65 ≤ c.toNat) (h2 : c.toNat ≤ 90) :
    isAsciiLetter c = true := by
  simp [isAsciiLetter]
  omega

theorem isAsciiLetter_digit (c : Char) (h1 : 48 ≤ c.toNat) (h2 : c.toNat ≤ 57) :
    isAsciiLetter c = false := by
  simp [isAsciiLetter]
  omega

theorem isDigitChar_digit (c : Char) (h1 : 48 ≤ c.toNat) (h2 : c.toNat ≤ 57) :
    isDigitChar c = true := by
  simp [isDigitChar]
  omega

theorem lettersToCol_colLettersAux (n : Nat) :
    LettersToCol (colLettersAux n) = some (n : Int) := by
  have hchars := colLettersAux_chars n
  have hne := colLettersAux_ne_nil n
  unfold LettersToCol
  rw [trimSpace_eq_self _ (fun c hc => isSpaceChar_false c (by have := hchars c hc; omega))]
  simp only [if_neg hne]
  rw [map_toUpperChar_upper _ hchars]
  have hall : (colLettersAux n).all isUpperLetter = true :=
    List.all_eq_true.mpr (fun c hc =>
      isUpperLetter_upper c (hchars c hc).1 (hchars c hc).2)
  rw [if_pos hall, colLettersAux_foldl n]
  simp

theorem atoi_natDigits (n : Nat) : atoi (natDigits n) = some (n : Int) := by
  have hchars := natDigits_chars n
  have hfold := natDigits_foldl n
  cases hD : natDigits n with
  | nil => exact absurd hD (natDigits_ne_nil n)
  | cons c t =>
    rw [hD] at hchars hfold
    have hc := hchars c (by simp)
    have h45 : ¬ c.toNat = 45 := by omega
    have h43 : ¬ c.toNat = 43 := by omega
    simp only [atoi]
    rw [if_neg h45, if_neg h43]
    unfold atoiDigits
    rw [if_pos ⟨by simp, List.all_eq_true.mpr
      (fun d hd => isDigitChar_digit d (hchars d hd).1 (hchars d hd).2)⟩]
    rw [hfold]

theorem parseCellRef_cellRef (col row : Int) (hc : 0 ≤ col) (hr : 0 ≤ row) :
    ParseCellRef (CellRef col row) = some (col, row) := by
  have hcol : ColToLetters col = colLettersAux col.toNat := by
    unfold ColToLetters
    rw [if_neg (by omega)]
  have hrow : intDigits (row + 1) = natDigits (row + 1).toNat := by
    unfold intDigits
    rw [if_neg (by omega)]
  have hLchars := colLettersAux_chars col.toNat
  have hDchars := natDigits_chars (row + 1).toNat
  have hLne := colLettersAux_ne_nil col.toNat
  have hDne := natDigits_ne_nil (row + 1).toNat
  have hcr : CellRef col row = colLettersAux col.toNat ++ natDigits (row + 1).toNat := by
    unfold CellRef
    rw [hcol, hrow]
  have hnospace : ∀ c ∈ colLettersAux col.toNat ++ natDigits (row + 1).toNat,
      isSpaceChar c = false := by
    intro c hcmem
    rcases List.mem_append.mp hcmem with h | h
    · exact isSpaceChar_false c (by have := hLchars c h; omega)
    · exact isSpaceChar_false c (by have := hDchars c h; omega)
  have hsplit := takeWhile_append_all isAsciiLetter
    (colLettersAux col.toNat) (natDigits (row + 1).toNat)
    (fun c hcmem => isAsciiLetter_upper c (hLchars c hcmem).1 (hLchars c hcmem).2)
    (by
      intro c hhead
      have hmem : c ∈ natDigits (row + 1).toNat := by
        cases hD : natDigits (row + 1).toNat with
        | nil => exact absurd hD hDne
        | cons d t =>
          rw [hD] at hhead
          simp at hhead
          simp [hD, hhead]
      exact isAsciiLetter_digit c (hDchars c hmem).1 (hDchars c hmem).2)
  unfold ParseCellRef
  rw [hcr, trimSpace_eq_self _ hnospace]
  simp only [hsplit.1, hsplit.2]
  rw [if_neg (by simp [hLne]), if_neg hLne]
  rw [trimSpace_eq_self _ (fun c hcmem =>
    isSpaceChar_false c (by have := hDchars c hcmem; omega))]
  rw [if_neg hDne]
  rw [lettersToCol_colLettersAux col.toNat, atoi_natDigits (row + 1).toNat]
  rw [Int.toNat_of_nonneg hc, Int.toNat_of_nonneg (by omega)]
  simp

/-- C10: for every col ≥ 0 and row ≥ 0, `ParseCellRef (CellRef col row)`
returns exactly `(col, row)` with no error; consequently `CellRef` is
injective on non-negative pairs, so distinct cells never share a key in the
sparse cell map. -/
theorem c10_roundtrip_injective (col row : Int) (hc : 0 ≤ col) (hr : 0 ≤ row) :
    ParseCellRef (CellRef col row) = some (col, row) ∧
    ∀ col2 row2 : Int, 0 ≤ col2 → 0 ≤ row2 →
      CellRef col row = CellRef col2 row2 → col = col2 ∧ row = row2 := by
  refine ⟨parseCellRef_cellRef col row hc hr, ?_⟩
  intro col2 row2 hc2 hr2 he
  have h1 := parseCellRef_cellRef col row hc hr
  have h2 := parseCellRef_cellRef col2 row2 hc2 hr2
  rw [he, h2] at h1
  injection h1 with h3
  exact ⟨(Prod.mk.injEq _ _ _ _ ▸ h3).1.symm, (Prod.mk.injEq _ _ _ _ ▸ h3).2.symm⟩

/-- C10 witness: the roundtrip and injectivity instantiated at
`(col, row) = (27, 99)` (key `"AB100"`). -/
theorem c10_roundtrip_injective_witness :
    ((0 : Int) ≤ 27 ∧ (0 : Int) ≤ 99) ∧
    (ParseCellRef (CellRef 27 99) = some (27, 99) ∧
     ∀ col2 row2 : Int, 0 ≤ col2 → 0 ≤ row2 →
       CellRef 27 99 = CellRef col2 row2 → (27 : Int) = col2 ∧ (99 : Int) = row2) :=
  ⟨⟨by decide, by decide⟩, c10_roundtrip_injective 27 99 (by decide) (by decide)⟩

/-! ## Claim C1: two-panel convergence of the resolver -/

theorem expLeft_addX (d : Int) (p : Panel) : expLeft (addX d p) = expLeft p + d := by
  simp [expLeft, addX]
  ring

theorem expW_addX (d : Int) (p : Panel) : expW (addX d p) = expW p := rfl

theorem expRight_addX (d : Int) (p : Panel) : expRight (addX d p) = expRight p + d := by
  simp [expRight, expLeft_addX, expW_addX]
  ring

theorem centerX_addX (d : Int) (p : Panel) : centerX (addX d p) = centerX p + d := by
  simp [centerX, expLeft_addX, expW_addX]
  ring

theorem overlapY_addX (a : Panel) (d : Int) (b : Panel) :
    overlapY a (addX d b) = overlapY a b := rfl

theorem addX_addX (d1 d2 : Int) (p : Panel) : addX d1 (addX d2 p) = addX (d2 + d1) p := by
  cases p
  simp [addX]
  ring

/-- The ordering invariant under which the resolver makes one pixel of
progress per tick: the moving panel's expanded interval lies on the far side
of the stationary panel's interval in the direction of motion (both endpoints
ordered the same way as the centers). -/
abbrev Hinv (a b : Panel) : Prop :=
  (centerX a < centerX b → expLeft a ≤ expLeft b ∧ expRight a ≤ expRight b) ∧
  (¬ centerX a < centerX b → expLeft b ≤ expLeft a ∧ expRight b ≤ expRight a)

theorem step_right (a b : Panel) (hWa : expLeft a ≤ expRight a)
    (hWb : expLeft b ≤ expRight b)
    (hL : expLeft a ≤ expLeft b) (hR : expRight a ≤ expRight b)
    (hv : 0 < violX a b) : violX a (addX 1 b) = violX a b - 1 := by
  have hmin : min (expRight a) (expRight b) = expRight a := min_eq_left hR
  have hmax : max (expLeft a) (expLeft b) = expLeft b := max_eq_right hL
  have hmin1 : min (expRight a) (expRight b + 1) = expRight a := min_eq_left (by omega)
  have hmax1 : max (expLeft a) (expLeft b + 1) = expLeft b + 1 := max_eq_right (by omega)
  simp only [violX, overlapX, gapX, panelGap, PanelPaddingX, expLeft_addX, expRight_addX,
    hmin, hmax, hmin1, hmax1] at hv ⊢
  split_ifs at hv ⊢ <;> omega

theorem step_left (a b : Panel) (hWa : expLeft a ≤ expRight a)
    (hWb : expLeft b ≤ expRight b)
    (hL : expLeft b ≤ expLeft a) (hR : expRight b ≤ expRight a)
    (hv : 0 < violX a b) : violX a (addX (-1) b) = violX a b - 1 := by
  have hmin : min (expRight a) (expRight b) = expRight b := min_eq_right hR
  have hmax : max (expLeft a) (expLeft b) = expLeft a := max_eq_left hL
  have hmin1 : min (expRight a) (expRight b + -1) = expRight b + -1 := min_eq_right (by omega)
  have hmax1 : max (expLeft a) (expLeft b + -1) = expLeft a := max_eq_left (by omega)
  simp only [violX, overlapX, gapX, panelGap, PanelPaddingX, expLeft_addX, expRight_addX,
    hmin, hmax, hmin1, hmax1] at hv ⊢
  split_ifs at hv ⊢ <;> omega

theorem moveDir_eq_one (a b : Panel) (h : centerX a < centerX b) : moveDir a b = 1 := by
  simp [moveDir, h]

theorem moveDir_eq_negOne (a b : Panel) (h : ¬ centerX a < centerX b) : moveDir a b = -1 := by
  simp [moveDir, h]

theorem moveDir_addX_preserved (a b : Panel) :
    moveDir a (addX (moveDir a b) b) = moveDir a b := by
  unfold moveDir
  by_cases hd : centerX a < centerX b
  · rw [if_pos hd, centerX_addX, if_pos (by omega)]
  · rw [if_neg hd, centerX_addX, if_neg (by omega)]

theorem Hinv_addX_preserved (a b : Panel) (hH : Hinv a b) :
    Hinv a (addX (moveDir a b) b) := by
  by_cases hd : centerX a < centerX b
  · have h1 := hH.1 hd
    simp only [moveDir, if_pos hd]
    constructor
    · intro _
      rw [expLeft_addX, expRight_addX]
      omega
    · intro hcon
      rw [centerX_addX] at hcon
      omega
  · have h1 := hH.2 hd
    simp only [moveDir, if_neg hd]
    constructor
    · intro hcon
      rw [centerX_addX] at hcon
      omega
    · intro _
      rw [expLeft_addX, expRight_addX]
      omega

/-- A no-lock resolver tick on a two-panel canvas: if the pair violates the
horizontal-gap requirement and overlaps vertically, the second panel moves
one pixel away from the first panel's center; otherwise nothing happens. -/
theorem tick_pair (a b : Panel) :
    tick [a, b] =
      if 0 < violX a b ∧ 0 < overlapY a b then [a, addX (moveDir a b) b]
      else [a, b] := by
  by_cases h : 0 < violX a b ∧ 0 < overlapY a b <;>
    simp [tick, resolveOneOverlap, findMove, scanJ, List.enum, List.enumFrom, h, modifyAt]

/-- C1 amended: for two panels of non-negative expanded width with
header-inclusive vertical overlap, neither locked, horizontal violation `v`,
and whose expanded horizontal intervals are ordered the same way as their
centers (`Hinv` — neither interval strictly inside the other), the resolver
moves only the second panel, exactly one pixel per tick in a fixed
direction, the violation drops by exactly one per tick, and it reaches
exactly zero after exactly `v` ticks. -/
theorem c1_two_panel_convergence (a b : Panel) (v : Nat)
    (hWa : expLeft a ≤ expRight a) (hWb : expLeft b ≤ expRight b) (hH : Hinv a b)
    (hY : 0 < overlapY a b) (hv : violX a b = (v : Int)) :
    ∀ k : Nat, k ≤ v →
      iterTick k [a, b] = [a, addX (moveDir a b * k) b] ∧
      violX a (addX (moveDir a b * k) b) = (v : Int) - k ∧
      Hinv a (addX (moveDir a b * k) b) ∧
      moveDir a (addX (moveDir a b * k) b) = moveDir a b := by
  intro k
  induction k with
  | zero =>
    intro _
    rw [Nat.cast_zero, mul_zero, addX_zero]
    exact ⟨rfl, by omega, hH, rfl⟩
  | succ k ih =>
    intro hk1
    obtain ⟨hiter, hviol, hHk, hdir⟩ := ih (by omega)
    set bk := addX (moveDir a b * (k : Int)) b with hbk
    have hpos : 0 < violX a bk := by
      rw [hviol]
      omega
    have hYk : 0 < overlapY a bk := by
      rw [hbk, overlapY_addX]
      exact hY
    have hWbk : expLeft bk ≤ expRight bk := by
      rw [hbk, expLeft_addX, expRight_addX]
      omega
    have htick : tick [a, bk] = [a, addX (moveDir a b) bk] := by
      rw [tick_pair, if_pos ⟨hpos, hYk⟩, hdir]
    have hcollapse : addX (moveDir a b) bk = addX (moveDir a b * ((k + 1 : Nat) : Int)) b := by
      rw [hbk, addX_addX]
      congr 1
      push_cast
      ring
    have hstep : violX a (addX (moveDir a b) bk) = violX a bk - 1 := by
      by_cases hdd : centerX a < centerX bk
      · have hd1 : moveDir a b = 1 := by
          rw [← hdir]
          exact moveDir_eq_one a bk hdd
        have hord := hHk.1 hdd
        rw [hd1]
        exact step_right a bk hWa hWbk hord.1 hord.2 hpos
      · have hd1 : moveDir a b = -1 := by
          rw [← hdir]
          exact moveDir_eq_negOne a bk hdd
        have hord := hHk.2 hdd
        rw [hd1]
        exact step_left a bk hWa hWbk hord.1 hord.2 hpos
    refine ⟨?_, ?_, ?_, ?_⟩
    · simp only [iterTick]
      rw [hiter, htick, hcollapse]
    · rw [← hcollapse, hstep, hviol]
      push_cast
      ring
    · have h3 := Hinv_addX_preserved a bk hHk
      rw [hdir, hcollapse] at h3
      exact h3
    · have h4 := moveDir_addX_preserved a bk
      rw [hdir, hcollapse] at h4
      exact h4

/-- Concrete nested configuration refuting the exact-tick-count claim: panel
`cexB`'s expanded interval lies strictly inside `cexA`'s. -/
def cexA : Panel :=
  { X := 0, Y := 0, Cols := 10, Rows := 1, CellW := 10, CellH := 10,
    Cells := [], Filename := "", Loaded := true }

def cexB : Panel :=
  { X := 40, Y := 0, Cols := 1, Rows := 1, CellW := 10, CellH := 10,
    Cells := [], Filename := "", Loaded := true }

/-- C1 counterexample: these two unlocked panels overlap vertically and have
horizontal violation `v = 22`, yet after 22 resolver ticks (each of which
does move the second panel one pixel) the violation is still 22, not zero —
the second panel's expanded interval is nested inside the first's, so the
overlap does not shrink while it slides across. -/
theorem c1_counterexample :
    0 < violX cexA cexB ∧ 0 < overlapY cexA cexB ∧ violX cexA cexB = 22 ∧
    iterTick 22 [cexA, cexB] = [cexA, addX (-22) cexB] ∧
    violX cexA (addX (-22) cexB) = 22 := by
  decide

def witA : Panel :=
  { X := 0, Y := 0, Cols := 1, Rows := 1, CellW := 10, CellH := 10,
    Cells := [], Filename := "", Loaded := true }

def witB : Panel :=
  { X := 10, Y := 0, Cols := 1, Rows := 1, CellW := 10, CellH := 10,
    Cells := [], Filename := "", Loaded := true }

/-- C1 witness: the amended convergence theorem instantiated at two
concrete overlapping panels with violation 12. -/
theorem c1_two_panel_convergence_witness :
    (expLeft witA ≤ expRight witA ∧ expLeft witB ≤ expRight witB ∧
      Hinv witA witB ∧ 0 < overlapY witA witB ∧
      violX witA witB = ((12 : Nat) : Int)) ∧
    (∀ k : Nat, k ≤ 12 →
      iterTick k [witA, witB] = [witA, addX (moveDir witA witB * k) witB] ∧
      violX witA (addX (moveDir witA witB * k) witB) = ((12 : Nat) : Int) - k ∧
      Hinv witA (addX (moveDir witA witB * k) witB) ∧
      moveDir witA (addX (moveDir witA witB * k) witB) = moveDir witA witB) :=
  ⟨⟨by decide, by decide, by decide, by decide, by decide⟩,
   c1_two_panel_convergence witA witB 12 (by decide) (by decide) (by decide) (by decide)
     (by decide)⟩

end CellCanvas
